import Mathlib

/-!
Verification of the per-record document-generation pipeline of
`generate_docs.py`: placeholder resolution (`render_template`), style
injection (`_inject_css_into_html`), output-name derivation
(`_sanitize_filename`, `_choose_output_filename`) and the batch
orchestration loop of `main`.

The Python functions are shallowly embedded as executable Lean
definitions over `List Char` / `String`.  External effects (the wall
clock, the filesystem, the PDF renderer) are passed in as explicit
parameters or oracles.  Literal brace characters are written with
`\x7b` / `\x7d` escapes.
-/

/-- A CSV row: an ordered association list from column name to cell
value (Python `Dict[str, str]`, keys unique). -/
abbrev Record := List (String × String)

/-- Python `\s` on the ASCII range, as used by `PLACEHOLDER_RE` and
`str.strip()`. -/
def isSpaceChar (c : Char) : Bool :=
  c == ' ' || c == '\t' || c == '\n' || c == '\r' || c == '\x0b' || c == '\x0c'

/-- The character class `[a-zA-Z0-9_]` of `PLACEHOLDER_RE`. -/
def isWordChar (c : Char) : Bool :=
  (decide ('a' ≤ c) && decide (c ≤ 'z')) ||
  (decide ('A' ≤ c) && decide (c ≤ 'Z')) ||
  (decide ('0' ≤ c) && decide (c ≤ '9')) ||
  c == '_'

/-- Greedy match of `PLACEHOLDER_RE`, i.e. the regex
`\x7b\x7b\s*([a-zA-Z0-9_]+)\s*\x7d\x7d`, at the head of the input.
Returns the captured name and the input remaining after the match.
Since the whitespace class, the word class and the brace characters
are pairwise disjoint, greedy matching without backtracking is exact
for this regex. -/
def matchPlaceholder : List Char → Option (String × List Char)
  | c1 :: c2 :: rest =>
    if c1 = '\x7b' ∧ c2 = '\x7b' then
      let afterOpenWs := rest.dropWhile isSpaceChar
      let nameChars := afterOpenWs.takeWhile isWordChar
      if nameChars = [] then none
      else
        match (afterOpenWs.dropWhile isWordChar).dropWhile isSpaceChar with
        | d1 :: d2 :: rest2 =>
          if d1 = '\x7d' ∧ d2 = '\x7d' then some (String.mk nameChars, rest2) else none
        | _ => none
    else none
  | _ => none

/-- Fuelled scanner for `PLACEHOLDER_RE.sub(repl, template_text)`:
scans left to right; at each position, a non-overlapping match is
replaced by the row value when the key is present, else by the empty
string while the name is appended to the missing list.  The fuel is
always instantiated with the input length, which suffices because
every step consumes at least one character. -/
def substFuel (row : Record) : Nat → List Char → List Char × List String
  | _, [] => ([], [])
  | 0, l => (l, [])
  | fuel + 1, c :: cs =>
    match matchPlaceholder (c :: cs) with
    | some (name, rest) =>
      let p := substFuel row fuel rest
      match List.lookup name row with
      | some v => (v.data ++ p.1, p.2)
      | none => (p.1, name :: p.2)
    | none =>
      let p := substFuel row fuel cs
      (c :: p.1, p.2)

/-- The regex-substitution pass of `render_template`. -/
def substPass (row : Record) (l : List Char) : List Char × List String :=
  substFuel row l.length l

/-- Fuelled form of Python `str.replace(pat, rep)`: replaces the
leftmost occurrences, non-overlapping, left to right. -/
def replaceAllFuel (pat rep : List Char) : Nat → List Char → List Char
  | _, [] => []
  | 0, l => l
  | fuel + 1, c :: cs =>
    if pat.isPrefixOf (c :: cs) then
      rep ++ replaceAllFuel pat rep fuel (List.drop pat.length (c :: cs))
    else
      c :: replaceAllFuel pat rep fuel cs

/-- Python `str.replace(pat, rep)` over character lists. -/
def replaceAll (pat rep l : List Char) : List Char :=
  replaceAllFuel pat rep l.length l

/-- The reserved timestamp token, the literal string of the Python
call `rendered.replace("\x7b\x7bgenerated_at\x7d\x7d", ...)`. -/
def gaTok : String := "\x7b\x7bgenerated_at\x7d\x7d"

/-- Return type of `render_template` (dataclass `RenderResult`). -/
structure RenderResult where
  html : String
  missing_placeholders : List String
deriving DecidableEq, Repr

/-- Embedding of `render_template(template_text, row)`.  The wall
clock is passed in as `now`, the already-formatted value of
`datetime.now().strftime("%Y-%m-%d %H:%M:%S")`. -/
def render_template (now : String) (template_text : String) (row : Record) : RenderResult :=
  let p := substPass row template_text.data
  let missing := p.2.erase "generated_at"
  let rendered := replaceAll gaTok.data now.data p.1
  { html := String.mk rendered
    missing_placeholders := List.insertionSort (fun a b : String => a ≤ b) missing.dedup }

/-- Case-insensitive literal match (the pattern is given lowercased,
Python `re.IGNORECASE` on an ASCII literal).  Returns the consumed
original characters and the remaining input. -/
def matchCIpref : List Char → List Char → Option (List Char × List Char)
  | [], l => some ([], l)
  | _ :: _, [] => none
  | p :: ps, c :: cs =>
    if c.toLower == p then (matchCIpref ps cs).map (fun q => (c :: q.1, q.2)) else none

/-- Does the regex `</head\s*>` (case-insensitive) match at the head
of the input? -/
def matchCloseHead (l : List Char) : Bool :=
  match matchCIpref "</head".data l with
  | some q =>
    match q.2.dropWhile isSpaceChar with
    | c :: _ => c == '>'
    | [] => false
  | none => false

/-- Split the document at the start of the first match of
`</head\s*>` (the `m.start()` of `re.search`), scanning positions
left to right. -/
def splitAtCloseHead : List Char → Option (List Char × List Char)
  | [] => none
  | c :: cs =>
    if matchCloseHead (c :: cs) then some ([], c :: cs)
    else (splitAtCloseHead cs).map (fun q => (c :: q.1, q.2))

/-- Match of the regex `<html[^>]*>` (case-insensitive) at the head of
the input: the literal `<html`, then a greedy run of non-`>`
characters, then `>`.  Returns the matched characters (original case)
and the remaining input. -/
def matchHtmlOpen (l : List Char) : Option (List Char × List Char) :=
  match matchCIpref "<html".data l with
  | some q =>
    match q.2.dropWhile (fun c => !(c == '>')) with
    | d :: rest2 =>
      if d = '>' then some (q.1 ++ q.2.takeWhile (fun c => !(c == '>')) ++ ['>'], rest2)
      else none
    | [] => none
  | none => none

/-- Split the document at the end of the first match of `<html[^>]*>`
(the `m.end()` of `re.search`): returns the document text up to and
including the match, and the remainder. -/
def splitAtHtmlOpen : List Char → Option (List Char × List Char)
  | [] => none
  | c :: cs =>
    match matchHtmlOpen (c :: cs) with
    | some q => some q
    | none => (splitAtHtmlOpen cs).map (fun q => (c :: q.1, q.2))

/-- The local `style_block` of `_inject_css_into_html`. -/
def style_block (css : String) : String := "<style>\n" ++ css ++ "\n</style>\n"

/-- Embedding of `_inject_css_into_html(html, css)`. -/
def _inject_css_into_html (html css : String) : String :=
  match splitAtCloseHead html.data with
  | some q => String.mk (q.1 ++ (style_block css).data ++ q.2)
  | none =>
    match splitAtHtmlOpen html.data with
    | some q =>
      String.mk (q.1 ++ ("\n<head>\n" ++ style_block css ++ "</head>\n").data ++ q.2)
    | none => style_block css ++ html

/-- Python `str.strip()` (whitespace at both ends). -/
def pyStrip (l : List Char) : List Char :=
  ((l.dropWhile isSpaceChar).reverse.dropWhile isSpaceChar).reverse

/-- The reserved Windows filename characters of the regex
`[<>:"/\\|?*]+` in `_sanitize_filename`. -/
def isReserved (c : Char) : Bool :=
  c == '<' || c == '>' || c == ':' || c == '\"' || c == '/' || c == '\\' ||
  c == '|' || c == '?' || c == '*'

/-- The substitution `re.sub(r'[<>:"/\\|?*]+', "_", name)`: each
maximal run of reserved characters becomes a single underscore.  The
flag records whether the previous character was part of a reserved
run. -/
def replRes : Bool → List Char → List Char
  | _, [] => []
  | prevRes, c :: cs =>
    if isReserved c then
      (if prevRes then [] else ['_']) ++ replRes true cs
    else
      c :: replRes false cs

/-- Python `name.rstrip(". ")`: drop trailing dots and spaces. -/
def rstripDotSpace (l : List Char) : List Char :=
  (l.reverse.dropWhile (fun c => c == '.' || c == ' ')).reverse

/-- Embedding of `_sanitize_filename(name)`. -/
def _sanitize_filename (name : String) : String :=
  let n1 := pyStrip name.data
  if n1 = [] then "document"
  else
    let n2 := replRes false n1
    let n3 := pyStrip (rstripDotSpace n2)
    if n3 = [] then "document" else String.mk n3

/-- The index formatting of the fallback name, Python format spec
`04d`: decimal digits zero-padded to a minimum width of four. -/
def zfill4 (n : Nat) : String :=
  let s := toString n
  if s.data.length < 4 then String.mk (List.replicate (4 - s.data.length) '0' ++ s.data) else s

/-- The priority-ordered candidate columns of
`_choose_output_filename`. -/
def nameKeys : List String := ["filename", "file_name", "doc_name", "document_name", "id", "name"]

/-- The key-scanning loop of `_choose_output_filename`: the first key
whose stripped value is non-empty wins and is sanitized. -/
def chooseFrom (row : Record) : List String → Option String
  | [] => none
  | k :: ks =>
    let val := pyStrip ((List.lookup k row).getD "").data
    if val = [] then chooseFrom row ks else some (_sanitize_filename (String.mk val))

/-- Embedding of `_choose_output_filename(row, index)`. -/
def _choose_output_filename (row : Record) (index : Nat) : String :=
  (chooseFrom row nameKeys).getD ("document_" ++ zfill4 index)

/-- The per-record loop of `main`: for each row (1-based `idx`), the
template is rendered, an output name derived, and the external
`html_to_pdf` call — modelled by the oracle `renderOk`, applied to the
attempt index and the rendered html — either appends the output path
or increments the failure count and continues. -/
def processRows (now template_with_css out_dir : String) (renderOk : Nat → String → Bool) :
    Nat → List Record → List String × Nat
  | _, [] => ([], 0)
  | idx, row :: rest =>
    let render := render_template now template_with_css row
    let filename := _choose_output_filename row idx ++ ".pdf"
    let out_pdf := out_dir ++ "/" ++ filename
    let p := processRows now template_with_css out_dir renderOk (idx + 1) rest
    if renderOk idx render.html then (out_pdf :: p.1, p.2) else (p.1, p.2 + 1)

/-- Embedding of the decision structure of `main`: template loading,
CSV loading and output-directory creation are external collaborators
passed in as results; a fatal input failure returns exit code 2 with
no record processed, a completed run returns exit code 0 when no
record failed and 1 otherwise.  The result is (exit code, produced
paths, failure count). -/
def mainRun (now out_dir : String) (tplLoad : Except String String)
    (csvLoad : Except String (List Record)) (mkdirOk : Bool)
    (renderOk : Nat → String → Bool) (css : String) : Nat × List String × Nat :=
  match tplLoad with
  | .error _ => (2, [], 0)
  | .ok template_text =>
    match csvLoad with
    | .error _ => (2, [], 0)
    | .ok rows =>
      if mkdirOk then
        let template_with_css := _inject_css_into_html template_text css
        let p := processRows now template_with_css out_dir renderOk 1 rows
        (if p.2 = 0 then 0 else 1, p.1, p.2)
      else (2, [], 0)

/-- Number of non-overlapping, left-to-right occurrences of `pat` in
the input (used only on concrete inputs). -/
def countOccurFuel (pat : List Char) : Nat → List Char → Nat
  | _, [] => 0
  | 0, _ => 0
  | fuel + 1, c :: cs =>
    if pat.isPrefixOf (c :: cs) then 1 + countOccurFuel pat fuel (List.drop pat.length (c :: cs))
    else countOccurFuel pat fuel cs

/-- Occurrence count of a pattern in a character list. -/
def countOccur (pat l : List Char) : Nat := countOccurFuel pat l.length l

/-- Modelled from the claim wording of C7 (not from the source): a
sanitizer that replaces each reserved character individually by an
underscore, with the surrounding trim / trailing-strip / default steps
of the specification. -/
def sanitizeSpecPerChar (name : String) : String :=
  let n1 := pyStrip name.data
  let n2 := n1.map (fun c => if isReserved c then '_' else c)
  let n3 := pyStrip (rstripDotSpace n2)
  if n3 = [] then "document" else String.mk n3

/-! ### Helper lemmas about the placeholder scanner -/

theorem matchPlaceholder_length {l : List Char} {n : String} {r : List Char}
    (h : matchPlaceholder l = some (n, r)) : r.length < l.length := by
  match l with
  | [] => simp [matchPlaceholder] at h
  | [c] => simp [matchPlaceholder] at h
  | c1 :: c2 :: rest =>
    simp only [matchPlaceholder] at h
    split at h
    · split at h
      · exact absurd h (by simp)
      · split at h
        · rename_i d1 d2 rest2 heq
          split at h
          · have hr : rest2 = r := by
              simpa using congrArg (fun q => (Option.getD q (n, rest2)).2) h
            have h1 : (d1 :: d2 :: rest2).length ≤
                ((rest.dropWhile isSpaceChar).dropWhile isWordChar).length := by
              rw [← heq]
              exact ((List.dropWhile_sublist _).length_le)
            have h2 : ((rest.dropWhile isSpaceChar).dropWhile isWordChar).length ≤
                (rest.dropWhile isSpaceChar).length := (List.dropWhile_sublist _).length_le
            have h3 : (rest.dropWhile isSpaceChar).length ≤ rest.length :=
              (List.dropWhile_sublist _).length_le
            rw [← hr]
            simp only [List.length_cons] at h1 ⊢
            omega
          · exact absurd h (by simp)
        · exact absurd h (by simp)
    · exact absurd h (by simp)

theorem substFuel_congr (row : Record) :
    ∀ f1 f2 l, l.length ≤ f1 → l.length ≤ f2 → substFuel row f1 l = substFuel row f2 l := by
  intro f1
  induction f1 with
  | zero =>
    intro f2 l h1 _
    have : l = [] := List.length_eq_zero.mp (Nat.le_zero.mp h1)
    subst this
    cases f2 <;> rfl
  | succ f ih =>
    intro f2 l h1 h2
    match l with
    | [] => cases f2 <;> rfl
    | c :: cs =>
      match f2 with
      | 0 => simp at h2
      | g + 1 =>
        simp only [substFuel]
        cases hm : matchPlaceholder (c :: cs) with
        | some p =>
          obtain ⟨name, rest⟩ := p
          have hl := matchPlaceholder_length hm
          simp only [List.length_cons] at h1 h2 hl
          simp only [ih g rest (by omega) (by omega)]
        | none =>
          simp only [List.length_cons] at h1 h2
          simp only [ih g cs (by omega) (by omega)]

theorem substPass_nil (row : Record) : substPass row [] = ([], []) := rfl

theorem substPass_cons_none {c : Char} {cs : List Char} (row : Record)
    (hm : matchPlaceholder (c :: cs) = none) :
    substPass row (c :: cs) = (c :: (substPass row cs).1, (substPass row cs).2) := by
  simp only [substPass, List.length_cons, substFuel, hm]

theorem substPass_cons_match {c : Char} {cs : List Char} {name : String} {rest : List Char}
    (row : Record) (hm : matchPlaceholder (c :: cs) = some (name, rest)) :
    substPass row (c :: cs) =
      match List.lookup name row with
      | some v => (v.data ++ (substPass row rest).1, (substPass row rest).2)
      | none => ((substPass row rest).1, name :: (substPass row rest).2) := by
  have hl := matchPlaceholder_length hm
  simp only [List.length_cons] at hl
  simp only [substPass, List.length_cons, substFuel, hm]
  simp only [substFuel_congr row cs.length rest.length rest (by omega) (by omega)]

theorem matchPlaceholder_none_of_head {c : Char} (cs : List Char) (h : c ≠ '\x7b') :
    matchPlaceholder (c :: cs) = none := by
  match cs with
  | [] => rfl
  | c2 :: rest => simp [matchPlaceholder, h]

theorem substPass_no_brace (row : Record) :
    ∀ l : List Char, ('\x7b' : Char) ∉ l → substPass row l = (l, []) := by
  intro l
  induction l with
  | nil => intro _; rfl
  | cons c cs ih =>
    intro hmem
    have hc : c ≠ '\x7b' := fun h => hmem (h ▸ List.mem_cons_self c cs)
    have hcs : ('\x7b' : Char) ∉ cs := fun h => hmem (List.mem_cons_of_mem c h)
    rw [substPass_cons_none row (matchPlaceholder_none_of_head cs hc), ih hcs]

theorem isWordChar_not_space {c : Char} (h : isWordChar c = true) : isSpaceChar c = false := by
  simp only [isWordChar, Bool.or_eq_true, Bool.and_eq_true, decide_eq_true_eq,
    beq_iff_eq] at h
  rcases h with ((⟨h1, h2⟩ | ⟨h1, h2⟩) | ⟨h1, h2⟩) | rfl
  · simp only [isSpaceChar, Bool.or_eq_false_iff, beq_eq_false_iff_ne]
    refine ⟨⟨⟨⟨⟨?_, ?_⟩, ?_⟩, ?_⟩, ?_⟩, ?_⟩ <;> rintro rfl <;> revert h1 <;> decide
  · simp only [isSpaceChar, Bool.or_eq_false_iff, beq_eq_false_iff_ne]
    refine ⟨⟨⟨⟨⟨?_, ?_⟩, ?_⟩, ?_⟩, ?_⟩, ?_⟩ <;> rintro rfl <;> revert h1 <;> decide
  · simp only [isSpaceChar, Bool.or_eq_false_iff, beq_eq_false_iff_ne]
    refine ⟨⟨⟨⟨⟨?_, ?_⟩, ?_⟩, ?_⟩, ?_⟩, ?_⟩ <;> rintro rfl <;> revert h1 <;> decide
  · decide

theorem isSpaceChar_not_word {c : Char} (h : isSpaceChar c = true) : isWordChar c = false := by
  by_contra hw
  have := isWordChar_not_space (Bool.of_not_eq_false hw)
  rw [h] at this
  simp at this

theorem dropWhile_append_all {p : Char → Bool} {a : List Char} (b : List Char)
    (ha : ∀ c ∈ a, p c = true) : List.dropWhile p (a ++ b) = List.dropWhile p b := by
  induction a with
  | nil => rfl
  | cons x xs ih =>
    simp only [List.cons_append, List.dropWhile_cons, ha x (List.mem_cons_self x xs), if_true]
    exact ih (fun c hc => ha c (List.mem_cons_of_mem x hc))

theorem dropWhile_head_false {p : Char → Bool} {c : Char} (cs : List Char)
    (hc : p c = false) : List.dropWhile p (c :: cs) = c :: cs := by
  simp [List.dropWhile_cons, hc]

theorem takeWhile_append_stop {p : Char → Bool} {a : List Char} {b : List Char}
    (ha : ∀ c ∈ a, p c = true)
    (hb : ∀ c cs, b = c :: cs → p c = false) :
    List.takeWhile p (a ++ b) = a ∧ List.dropWhile p (a ++ b) = b := by
  induction a with
  | nil =>
    constructor
    · match b with
      | [] => rfl
      | c :: cs => simp [List.takeWhile_cons, hb c cs rfl]
    · match b with
      | [] => rfl
      | c :: cs => simp [List.dropWhile_cons, hb c cs rfl]
  | cons x xs ih =>
    have hx : p x = true := ha x (List.mem_cons_self x xs)
    have := ih (fun c hc => ha c (List.mem_cons_of_mem x hc))
    constructor
    · simp only [List.cons_append, List.takeWhile_cons, hx, if_true, this.1]
    · simp only [List.cons_append, List.dropWhile_cons, hx, if_true, this.2]

/-- A well-formed placeholder token at the head of the input is
matched exactly, capturing the name and leaving the text after the
closing braces. -/
theorem matchPlaceholder_token {ws1 name ws2 : List Char} (rest : List Char)
    (hw1 : ∀ c ∈ ws1, isSpaceChar c = true) (hw2 : ∀ c ∈ ws2, isSpaceChar c = true)
    (hn : name ≠ []) (hname : ∀ c ∈ name, isWordChar c = true) :
    matchPlaceholder ('\x7b' :: '\x7b' :: (ws1 ++ name ++ ws2 ++ '\x7d' :: '\x7d' :: rest)) =
      some (String.mk name, rest) := by
  have hdw1 : List.dropWhile isSpaceChar
      (ws1 ++ name ++ ws2 ++ '\x7d' :: '\x7d' :: rest) =
      name ++ ws2 ++ '\x7d' :: '\x7d' :: rest := by
    rw [List.append_assoc, List.append_assoc,
      dropWhile_append_all (name ++ (ws2 ++ '\x7d' :: '\x7d' :: rest)) hw1]
    match name, hn with
    | c :: cs, _ =>
      simp only [List.cons_append]
      rw [dropWhile_head_false _ (isWordChar_not_space (hname c (List.mem_cons_self c cs)))]
      simp [List.append_assoc]
  have hstop : ∀ c cs, ws2 ++ '\x7d' :: '\x7d' :: rest = c :: cs → isWordChar c = false := by
    intro c cs heq
    match ws2, heq with
    | [], heq =>
      have : c = '\x7d' := by simpa using (congrArg (fun l => l.headD 'x') heq).symm
      subst this; decide
    | w :: ws, heq =>
      have : c = w := by simpa using (congrArg (fun l => l.headD 'x') heq).symm
      subst this
      exact isSpaceChar_not_word (hw2 c (List.mem_cons_self c ws))
  have htw := takeWhile_append_stop hname hstop
  have hdw2 : List.dropWhile isSpaceChar (ws2 ++ '\x7d' :: '\x7d' :: rest) =
      '\x7d' :: '\x7d' :: rest := by
    rw [dropWhile_append_all _ hw2, dropWhile_head_false _ (by decide)]
  simp only [matchPlaceholder, and_self, if_true, List.append_assoc] at *
  rw [hdw1, htw.1, htw.2, hdw2]
  simp [hn]

/-- Text containing no opening brace is copied verbatim by the scan,
and a token at the head is consumed as one match; together these two
characterize the left-to-right, non-overlapping substitution.  Form
with the name bound in the record. -/
theorem substPass_step_val (s ws1 name ws2 : List Char) (row : Record) (v : String)
    (rest : List Char)
    (hs : ('\x7b' : Char) ∉ s)
    (hw1 : ∀ c ∈ ws1, isSpaceChar c = true) (hw2 : ∀ c ∈ ws2, isSpaceChar c = true)
    (hn : name ≠ []) (hname : ∀ c ∈ name, isWordChar c = true)
    (hlook : List.lookup (String.mk name) row = some v) :
    substPass row (s ++ '\x7b' :: '\x7b' :: (ws1 ++ name ++ ws2 ++ '\x7d' :: '\x7d' :: rest)) =
      (s ++ v.data ++ (substPass row rest).1, (substPass row rest).2) := by
  induction s with
  | nil =>
    rw [List.nil_append,
      substPass_cons_match row
        (by rw [show ('\x7b' :: (ws1 ++ name ++ ws2 ++ '\x7d' :: '\x7d' :: rest)) =
              ('\x7b' :: ws1 ++ name ++ ws2 ++ '\x7d' :: '\x7d' :: rest) from rfl] at *
            exact matchPlaceholder_token rest hw1 hw2 hn hname)]
    rw [hlook]
    simp
  | cons x xs ih =>
    have hx : x ≠ '\x7b' := fun h => hs (h ▸ List.mem_cons_self x xs)
    have hxs : ('\x7b' : Char) ∉ xs := fun h => hs (List.mem_cons_of_mem x h)
    rw [List.cons_append, substPass_cons_none row (matchPlaceholder_none_of_head _ hx), ih hxs]
    simp

/-- Same step, with the name missing from the record: the occurrence
is replaced by the empty string and the name recorded as missing. -/
theorem substPass_step_missing (s ws1 name ws2 : List Char) (row : Record)
    (rest : List Char)
    (hs : ('\x7b' : Char) ∉ s)
    (hw1 : ∀ c ∈ ws1, isSpaceChar c = true) (hw2 : ∀ c ∈ ws2, isSpaceChar c = true)
    (hn : name ≠ []) (hname : ∀ c ∈ name, isWordChar c = true)
    (hlook : List.lookup (String.mk name) row = none) :
    substPass row (s ++ '\x7b' :: '\x7b' :: (ws1 ++ name ++ ws2 ++ '\x7d' :: '\x7d' :: rest)) =
      (s ++ (substPass row rest).1, String.mk name :: (substPass row rest).2) := by
  induction s with
  | nil =>
    rw [List.nil_append,
      substPass_cons_match row
        (by rw [show ('\x7b' :: (ws1 ++ name ++ ws2 ++ '\x7d' :: '\x7d' :: rest)) =
              ('\x7b' :: ws1 ++ name ++ ws2 ++ '\x7d' :: '\x7d' :: rest) from rfl] at *
            exact matchPlaceholder_token rest hw1 hw2 hn hname)]
    rw [hlook]
    simp
  | cons x xs ih =>
    have hx : x ≠ '\x7b' := fun h => hs (h ▸ List.mem_cons_self x xs)
    have hxs : ('\x7b' : Char) ∉ xs := fun h => hs (List.mem_cons_of_mem x h)
    rw [List.cons_append, substPass_cons_none row (matchPlaceholder_none_of_head _ hx), ih hxs]
    simp

/-- Every name collected in the missing list of the scan is absent
from the record. -/
theorem substPass_missing_not_key (row : Record) :
    ∀ fuel l a, a ∈ (substFuel row fuel l).2 → List.lookup a row = none := by
  intro fuel
  induction fuel with
  | zero =>
    intro l a ha
    match l with
    | [] => simp [substFuel] at ha
    | c :: cs => simp [substFuel] at ha
  | succ f ih =>
    intro l a ha
    match l with
    | [] => simp [substFuel] at ha
    | c :: cs =>
      simp only [substFuel] at ha
      cases hm : matchPlaceholder (c :: cs) with
      | some p =>
        obtain ⟨name, rest⟩ := p
        rw [hm] at ha
        cases hlk : List.lookup name row with
        | some v =>
          simp only [hlk] at ha
          exact ih rest a ha
        | none =>
          simp only [hlk] at ha
          rcases List.mem_cons.mp ha with rfl | ha2
          · exact hlk
          · exact ih rest a ha2
      | none =>
        rw [hm] at ha
        exact ih cs a ha

/-! ### Helper lemmas about the timestamp replacement pass -/

theorem replaceAllFuel_congr {pat : List Char} (rep : List Char) (hp : pat ≠ []) :
    ∀ f1 f2 l, l.length ≤ f1 → l.length ≤ f2 →
      replaceAllFuel pat rep f1 l = replaceAllFuel pat rep f2 l := by
  intro f1
  induction f1 with
  | zero =>
    intro f2 l h1 _
    have : l = [] := List.length_eq_zero.mp (Nat.le_zero.mp h1)
    subst this
    cases f2 <;> rfl
  | succ f ih =>
    intro f2 l h1 h2
    match l with
    | [] => cases f2 <;> rfl
    | c :: cs =>
      match f2 with
      | 0 => simp at h2
      | g + 1 =>
        simp only [replaceAllFuel]
        by_cases hpre : pat.isPrefixOf (c :: cs)
        · simp only [hpre, if_true]
          have hplen : 0 < pat.length := List.length_pos.mpr hp
          have hdl : (List.drop pat.length (c :: cs)).length ≤ cs.length := by
            simp only [List.length_drop, List.length_cons]
            omega
          simp only [List.length_cons] at h1 h2
          rw [ih g _ (by omega) (by omega)]
        · simp only [hpre, if_false, Bool.false_eq_true]
          simp only [List.length_cons] at h1 h2
          rw [ih g cs (by omega) (by omega)]

theorem isInfix_of_isInfix_cons {l₁ l₂ : List Char} (c : Char) (h : l₁ <:+: l₂) :
    l₁ <:+: c :: l₂ :=
  h.trans (List.suffix_cons c l₂).isInfix

/-- A pattern that occurs nowhere in the input leaves `str.replace`
as the identity. -/
theorem replaceAll_of_not_contained {pat : List Char} (rep : List Char)
    (l : List Char) (h : ¬ pat <:+: l) : replaceAll pat rep l = l := by
  have main : ∀ f l, l.length ≤ f → ¬ pat <:+: l → replaceAllFuel pat rep f l = l := by
    intro f
    induction f with
    | zero =>
      intro l h1 _
      have : l = [] := List.length_eq_zero.mp (Nat.le_zero.mp h1)
      subst this
      rfl
    | succ g ih =>
      intro l h1 hni
      match l with
      | [] => rfl
      | c :: cs =>
        simp only [replaceAllFuel]
        have hpre : pat.isPrefixOf (c :: cs) = false := by
          by_contra hcon
          have hp := List.isPrefixOf_iff_prefix.mp (Bool.of_not_eq_false hcon)
          exact hni hp.isInfix
        simp only [hpre, Bool.false_eq_true, if_false]
        simp only [List.length_cons] at h1
        rw [ih cs (by omega) (fun hc => hni (isInfix_of_isInfix_cons c hc))]
  exact main l.length l (Nat.le_refl _) h

/-! ### Helper lemmas about the missing-name report -/

theorem missing_report_sorted (l : List String) :
    List.Sorted (fun a b : String => a ≤ b) (List.insertionSort (fun a b : String => a ≤ b) l) :=
  List.sorted_insertionSort _ l

theorem missing_report_nodup (l : List String) :
    (List.insertionSort (fun a b : String => a ≤ b) l.dedup).Nodup :=
  ((List.perm_insertionSort (fun a b : String => a ≤ b) l.dedup).nodup_iff).mpr (List.nodup_dedup l)

/-! ### Helper lemmas about the style composer -/

theorem splitAtCloseHead_eq_append :
    ∀ {l : List Char} {q : List Char × List Char},
      splitAtCloseHead l = some q → q.1 ++ q.2 = l := by
  intro l
  induction l with
  | nil => intro q h; simp [splitAtCloseHead] at h
  | cons c cs ih =>
    intro q h
    simp only [splitAtCloseHead] at h
    split at h
    · have : (([], c :: cs) : List Char × List Char) = q := by simpa using h
      rw [← this]
      rfl
    · cases hs : splitAtCloseHead cs with
      | some q2 =>
        rw [hs] at h
        have : (c :: q2.1, q2.2) = q := by simpa using h
        rw [← this]
        simpa using ih hs
      | none => rw [hs] at h; simp at h

theorem matchCIpref_eq_append :
    ∀ {pat l : List Char} {q : List Char × List Char},
      matchCIpref pat l = some q → q.1 ++ q.2 = l := by
  intro pat
  induction pat with
  | nil =>
    intro l q h
    have : (([], l) : List Char × List Char) = q := by simpa [matchCIpref] using h
    rw [← this]
    rfl
  | cons p ps ih =>
    intro l q h
    match l with
    | [] => simp [matchCIpref] at h
    | c :: cs =>
      simp only [matchCIpref] at h
      split at h
      · cases hs : matchCIpref ps cs with
        | some q2 =>
          rw [hs] at h
          have : (c :: q2.1, q2.2) = q := by simpa using h
          rw [← this]
          simpa using ih hs
        | none => rw [hs] at h; simp at h
      · simp at h

theorem matchHtmlOpen_eq_append {l : List Char} {q : List Char × List Char}
    (h : matchHtmlOpen l = some q) : q.1 ++ q.2 = l := by
  unfold matchHtmlOpen at h
  cases hm : matchCIpref "<html".data l with
  | some q1 =>
    rw [hm] at h
    dsimp only at h
    cases hd : q1.2.dropWhile (fun c => !(c == '>')) with
    | nil => rw [hd] at h; simp at h
    | cons d rest2 =>
      rw [hd] at h
      dsimp only at h
      by_cases hgt : d = '>'
      · rw [if_pos hgt] at h
        subst hgt
        have hq : (q1.1 ++ q1.2.takeWhile (fun c => !(c == '>')) ++ ['>'], rest2) = q := by
          simpa using h
        rw [← hq]
        have htd : q1.2.takeWhile (fun c => !(c == '>')) ++ ('>' :: rest2) = q1.2 := by
          rw [← hd]
          exact List.takeWhile_append_dropWhile _ _
        calc (q1.1 ++ q1.2.takeWhile (fun c => !(c == '>')) ++ ['>']) ++ rest2
            = q1.1 ++ (q1.2.takeWhile (fun c => !(c == '>')) ++ ('>' :: rest2)) := by
              simp [List.append_assoc]
          _ = q1.1 ++ q1.2 := by rw [htd]
          _ = l := matchCIpref_eq_append hm
      · rw [if_neg hgt] at h
        simp at h
  | none => rw [hm] at h; simp at h

theorem splitAtHtmlOpen_eq_append :
    ∀ {l : List Char} {q : List Char × List Char},
      splitAtHtmlOpen l = some q → q.1 ++ q.2 = l := by
  intro l
  induction l with
  | nil => intro q h; simp [splitAtHtmlOpen] at h
  | cons c cs ih =>
    intro q h
    simp only [splitAtHtmlOpen] at h
    cases hm : matchHtmlOpen (c :: cs) with
    | some q1 =>
      rw [hm] at h
      have : q1 = q := by simpa using h
      rw [← this]
      exact matchHtmlOpen_eq_append hm
    | none =>
      rw [hm] at h
      cases hs : splitAtHtmlOpen cs with
      | some q2 =>
        rw [hs] at h
        have : (c :: q2.1, q2.2) = q := by simpa using h
        rw [← this]
        simpa using ih hs
      | none => rw [hs] at h; simp at h

theorem style_block_data (css : String) :
    (style_block css).data = "<style>\n".data ++ css.data ++ "\n</style>\n".data := by
  simp [style_block, String.data_append]

theorem style_block_length_pos (css : String) : 0 < (style_block css).data.length := by
  rw [style_block_data]
  simp

/-- One application of the composer strictly lengthens the document:
each branch inserts a non-empty block. -/
theorem inject_length_gt (html css : String) :
    html.data.length < (_inject_css_into_html html css).data.length := by
  unfold _inject_css_into_html
  cases hc : splitAtCloseHead html.data with
  | some q =>
    have hq := splitAtCloseHead_eq_append hc
    have hsb := style_block_length_pos css
    show html.data.length < (q.1 ++ (style_block css).data ++ q.2).length
    rw [← hq]
    simp only [List.length_append]
    omega
  | none =>
    cases ho : splitAtHtmlOpen html.data with
    | some q =>
      have hq := splitAtHtmlOpen_eq_append ho
      have hpos : 0 < ("\n<head>\n" ++ style_block css ++ "</head>\n").data.length := by
        simp [String.data_append]
      show html.data.length <
        (q.1 ++ ("\n<head>\n" ++ style_block css ++ "</head>\n").data ++ q.2).length
      rw [← hq]
      simp only [List.length_append]
      omega
    | none =>
      have hsb := style_block_length_pos css
      show html.data.length < (style_block css ++ html).data.length
      rw [String.data_append]
      simp only [List.length_append]
      omega

/-! ### Helper lemmas about filename sanitization -/

theorem replRes_not_reserved :
    ∀ (l : List Char) (b : Bool) (c : Char), c ∈ replRes b l → isReserved c = false := by
  intro l
  induction l with
  | nil => intro b c h; simp [replRes] at h
  | cons x xs ih =>
    intro b c h
    simp only [replRes] at h
    split at h
    · rcases List.mem_append.mp h with h1 | h2
      · have : c = '_' := by
          cases b
          · simpa using h1
          · simp at h1
        subst this; decide
      · exact ih true c h2
    · rcases List.mem_cons.mp h with rfl | h2
      · rename_i hx
        exact Bool.of_not_eq_true hx
      · exact ih false c h2

theorem mem_of_mem_pyStrip {c : Char} {l : List Char} (h : c ∈ pyStrip l) : c ∈ l := by
  simp only [pyStrip, List.mem_reverse] at h
  have h2 := (List.dropWhile_sublist isSpaceChar).mem h
  rw [List.mem_reverse] at h2
  exact (List.dropWhile_sublist isSpaceChar).mem h2

theorem mem_of_mem_rstripDotSpace {c : Char} {l : List Char}
    (h : c ∈ rstripDotSpace l) : c ∈ l := by
  simp only [rstripDotSpace, List.mem_reverse] at h
  have h2 := (List.dropWhile_sublist _).mem h
  rwa [List.mem_reverse] at h2

/-! ### Claim theorems -/

/-- C1: for every template and record, `render_template` replaces each
non-overlapping, left-to-right occurrence of the placeholder pattern
(two opening braces, optional whitespace, a `[A-Za-z0-9_]+` name,
optional whitespace, two closing braces) with the record value when
the name is a key, else with the empty string while recording the name
as unresolved; the returned unresolved list is deduplicated and
lexicographically sorted; and a template consisting only of the
placeholder `missing` over a record without that key renders to the
empty string with unresolved list `["missing"]`. -/
theorem C1_placeholder_resolution :
    (∀ (row : Record) (l : List Char), ('\x7b' : Char) ∉ l → substPass row l = (l, []))
    ∧ (∀ (row : Record) (s ws1 name ws2 rest : List Char) (v : String),
        ('\x7b' : Char) ∉ s →
        (∀ c ∈ ws1, isSpaceChar c = true) → (∀ c ∈ ws2, isSpaceChar c = true) →
        name ≠ [] → (∀ c ∈ name, isWordChar c = true) →
        List.lookup (String.mk name) row = some v →
        substPass row
            (s ++ '\x7b' :: '\x7b' :: (ws1 ++ name ++ ws2 ++ '\x7d' :: '\x7d' :: rest)) =
          (s ++ v.data ++ (substPass row rest).1, (substPass row rest).2))
    ∧ (∀ (row : Record) (s ws1 name ws2 rest : List Char),
        ('\x7b' : Char) ∉ s →
        (∀ c ∈ ws1, isSpaceChar c = true) → (∀ c ∈ ws2, isSpaceChar c = true) →
        name ≠ [] → (∀ c ∈ name, isWordChar c = true) →
        List.lookup (String.mk name) row = none →
        substPass row
            (s ++ '\x7b' :: '\x7b' :: (ws1 ++ name ++ ws2 ++ '\x7d' :: '\x7d' :: rest)) =
          (s ++ (substPass row rest).1, String.mk name :: (substPass row rest).2))
    ∧ (∀ (now template : String) (row : Record),
        List.Sorted (fun a b : String => a ≤ b)
            (render_template now template row).missing_placeholders
          ∧ (render_template now template row).missing_placeholders.Nodup)
    ∧ (∀ now : String,
        render_template now "\x7b\x7bmissing\x7d\x7d" [] =
          { html := "", missing_placeholders := ["missing"] }) := by
  refine ⟨?_, ?_, ?_, ?_, ?_⟩
  · intro row l h
    exact substPass_no_brace row l h
  · intro row s ws1 name ws2 rest v hs hw1 hw2 hn hname hlook
    exact substPass_step_val s ws1 name ws2 row v rest hs hw1 hw2 hn hname hlook
  · intro row s ws1 name ws2 rest hs hw1 hw2 hn hname hlook
    exact substPass_step_missing s ws1 name ws2 row rest hs hw1 hw2 hn hname hlook
  · intro now template row
    exact ⟨missing_report_sorted _, missing_report_nodup _⟩
  · intro now
    rfl

/-- Witness for C1: a concrete template `Hi {{name}}!` whose
placeholder is bound to `Ann` is substituted in place. -/
theorem C1_placeholder_resolution_witness :
    substPass [("name", "Ann")]
        ("Hi ".data ++ '\x7b' :: '\x7b' ::
          ([' '] ++ "name".data ++ [' '] ++ '\x7d' :: '\x7d' :: "!".data)) =
      ("Hi ".data ++ ("Ann" : String).data ++ (substPass [("name", "Ann")] "!".data).1,
       (substPass [("name", "Ann")] "!".data).2) :=
  C1_placeholder_resolution.2.1 [("name", "Ann")] "Hi ".data [' '] "name".data [' ']
    "!".data "Ann" (by decide) (by decide) (by decide) (by decide) (by decide) (by decide)

/-- C2 (code bug): the reserved timestamp placeholder is never
resolved to the clock value.  The regex pass runs first and already
consumes every `generated_at` token — replacing it with the empty
string when the record lacks the field — so the later
`str.replace` pass finds nothing; for Scenario A the rendered output
is exactly `"Hello Ann, generated "` with no timestamp, for every
clock value `now`. -/
theorem C2_reserved_timestamp_dropped (now : String) :
    render_template now "Hello \x7b\x7bname\x7d\x7d, generated \x7b\x7bgenerated_at\x7d\x7d"
        [("name", "Ann")] =
      { html := "Hello Ann, generated ", missing_placeholders := [] } := rfl

/-- C3 is false as stated: a record value that is the literal string
`\x7b\x7bgenerated_at\x7d\x7d` is not inserted literally — the second
pass of `render_template` replaces it with the timestamp. -/
theorem C3_counterexample :
    render_template "2025-01-02 03:04:05" "\x7b\x7bx\x7d\x7d" [("x", gaTok)] =
        { html := "2025-01-02 03:04:05", missing_placeholders := [] }
      ∧ (("2025-01-02 03:04:05" : String) == gaTok) = false := by
  exact ⟨rfl, by decide⟩

/-- C3 (amended): a record value containing placeholder syntax is
inserted literally and never re-scanned by the placeholder pass,
except that a literal occurrence of the reserved token
`\x7b\x7bgenerated_at\x7d\x7d` inside an inserted value is replaced by
the timestamp in the second pass. -/
theorem C3_no_recursive_substitution :
    (∀ now v : String, ¬ gaTok.data <:+: v.data →
        render_template now "\x7b\x7bx\x7d\x7d" [("x", v)] =
          { html := v, missing_placeholders := [] })
    ∧ (∀ now : String,
        render_template now "\x7b\x7bx\x7d\x7d" [("x", gaTok)] =
          { html := now, missing_placeholders := [] }) := by
  constructor
  · intro now v hv
    have h := substPass_step_val [] [] "x".data [] [("x", v)] v []
      (by decide) (by decide) (by decide) (by decide) (by decide) rfl
    have hsub : substPass [("x", v)] ("\x7b\x7bx\x7d\x7d" : String).data =
        (v.data ++ [], []) := h
    rw [List.append_nil] at hsub
    simp only [render_template, hsub]
    rw [replaceAll_of_not_contained now.data v.data hv]
    rfl
  · intro now
    have h := substPass_step_val [] [] "x".data [] [("x", gaTok)] gaTok []
      (by decide) (by decide) (by decide) (by decide) (by decide) rfl
    have hsub : substPass [("x", gaTok)] ("\x7b\x7bx\x7d\x7d" : String).data =
        (gaTok.data ++ [], []) := h
    rw [List.append_nil] at hsub
    simp only [render_template, hsub]
    have hrep : replaceAll gaTok.data now.data gaTok.data = now.data ++ [] := rfl
    rw [hrep, List.append_nil]
    rfl

/-- Witness for C3: the value `\x7b\x7by\x7d\x7d`, which contains
placeholder syntax but not the reserved token, is inserted literally. -/
theorem C3_no_recursive_substitution_witness :
    render_template "T" "\x7b\x7bx\x7d\x7d" [("x", "\x7b\x7by\x7d\x7d")] =
      { html := "\x7b\x7by\x7d\x7d", missing_placeholders := [] } :=
  C3_no_recursive_substitution.1 "T" "\x7b\x7by\x7d\x7d" (by decide)

/-- C4: a failing render call only increments the failure count and
processing continues with the next record; after the loop the number
of produced paths plus the failure count equals the number of records
attempted, and the produced paths appear in input record order (they
are exactly the name-derived paths of the records whose render call
succeeded, filtered in order from the enumerated input). -/
theorem C4_batch_isolation (now tpl out : String) (ok : Nat → String → Bool)
    (idx : Nat) (rows : List Record) :
    (processRows now tpl out ok idx rows).1.length + (processRows now tpl out ok idx rows).2 =
        rows.length
      ∧ (processRows now tpl out ok idx rows).1 =
          ((List.enumFrom idx rows).filter
              (fun p => ok p.1 (render_template now tpl p.2).html)).map
            (fun p => out ++ "/" ++ (_choose_output_filename p.2 p.1 ++ ".pdf")) := by
  induction rows generalizing idx with
  | nil => exact ⟨rfl, rfl⟩
  | cons r rest ih =>
    obtain ⟨ih1, ih2⟩ := ih (idx + 1)
    constructor
    · simp only [processRows]
      by_cases hok : ok idx (render_template now tpl r).html = true
      · rw [if_pos hok]
        simp only [List.length_cons]
        omega
      · rw [if_neg hok]
        simp only [List.length_cons]
        omega
    · simp only [processRows, List.enumFrom, List.filter_cons]
      by_cases hok : ok idx (render_template now tpl r).html = true
      · rw [if_pos hok, hok]
        simpa using ih2
      · rw [if_neg hok, Bool.not_eq_true] at *
        rw [hok]
        simpa using ih2

/-- C5: the composer inserts the stylesheet before the first closing
head marker when one exists; otherwise, after the first opening html
marker, wrapped in a synthetic head section, when one exists;
otherwise it prepends the stylesheet — and in every case the output
contains the stylesheet block. -/
theorem C5_style_injection_priority :
    (∀ (html css : String) (q : List Char × List Char),
        splitAtCloseHead html.data = some q →
        _inject_css_into_html html css = String.mk (q.1 ++ (style_block css).data ++ q.2))
    ∧ (∀ (html css : String) (q : List Char × List Char),
        splitAtCloseHead html.data = none → splitAtHtmlOpen html.data = some q →
        _inject_css_into_html html css =
          String.mk (q.1 ++ ("\n<head>\n" ++ style_block css ++ "</head>\n").data ++ q.2))
    ∧ (∀ html css : String,
        splitAtCloseHead html.data = none → splitAtHtmlOpen html.data = none →
        _inject_css_into_html html css = style_block css ++ html)
    ∧ (∀ html css : String,
        (style_block css).data <:+: (_inject_css_into_html html css).data) := by
  refine ⟨?_, ?_, ?_, ?_⟩
  · intro html css q h
    simp only [_inject_css_into_html, h]
  · intro html css q h1 h2
    simp only [_inject_css_into_html, h1, h2]
  · intro html css h1 h2
    simp only [_inject_css_into_html, h1, h2]
  · intro html css
    unfold _inject_css_into_html
    cases hc : splitAtCloseHead html.data with
    | some q => exact ⟨q.1, q.2, rfl⟩
    | none =>
      cases ho : splitAtHtmlOpen html.data with
      | some q =>
        refine ⟨q.1 ++ "\n<head>\n".data, "</head>\n".data ++ q.2, ?_⟩
        show (q.1 ++ "\n<head>\n".data) ++ (style_block css).data ++
            ("</head>\n".data ++ q.2) =
          q.1 ++ ("\n<head>\n" ++ style_block css ++ "</head>\n").data ++ q.2
        rw [String.data_append, String.data_append]
        simp [List.append_assoc]
      | none =>
        refine ⟨[], html.data, ?_⟩
        rw [String.data_append]
        simp

/-- Witness for C5: a fragment with a closing head marker receives the
stylesheet immediately before it. -/
theorem C5_style_injection_priority_witness :
    _inject_css_into_html "<a></head>x" "c" =
      String.mk (("<a>" : String).data ++ (style_block "c").data ++ ("</head>x" : String).data) :=
  C5_style_injection_priority.1 "<a></head>x" "c" ("<a>".data, "</head>x".data) (by decide)

/-- C6 is false as stated: applying the composer twice to an
already-styled document yields two copies of the stylesheet block, not
one. -/
theorem C6_counterexample :
    countOccur (style_block "c").data
        (_inject_css_into_html (_inject_css_into_html "<html><head></head></html>" "c") "c").data
        = 2
      ∧ countOccur (style_block "c").data
          (_inject_css_into_html "<html><head></head></html>" "c").data = 1
      ∧ ((2 : Nat) == 1) = false := by
  exact ⟨by decide, by decide, rfl⟩

/-- C6 (amended): the composer is not idempotent — every application
strictly lengthens the document by inserting a fresh copy of the
stylesheet block, so applying it twice never equals applying it
once. -/
theorem C6_not_idempotent (html css : String) :
    html.data.length < (_inject_css_into_html html css).data.length
      ∧ ((_inject_css_into_html (_inject_css_into_html html css) css ==
          _inject_css_into_html html css) = false) := by
  constructor
  · exact inject_length_gt html css
  · rw [beq_eq_false_iff_ne]
    intro heq
    have h2 := inject_length_gt (_inject_css_into_html html css) css
    rw [heq] at h2
    omega

/-- C7 is false as stated: the regex `[<>:"/\\|?*]+` collapses each
maximal run of reserved characters into one underscore, so the code
does not replace each reserved character individually — on `a//b` the
code yields `a_b` while per-character replacement yields `a__b`. -/
theorem C7_counterexample :
    _sanitize_filename "a//b" = "a_b"
      ∧ sanitizeSpecPerChar "a//b" = "a__b"
      ∧ (("a_b" : String) == "a__b") = false := by
  exact ⟨by decide, by decide, by decide⟩

/-- C7 (amended): sanitization trims surrounding whitespace, replaces
each maximal run of reserved characters with a single underscore,
strips trailing dots and spaces, and substitutes the default name when
the result is empty; the result never contains a reserved character,
`a/b:c` sanitizes to `a_b_c`, and `a//b` to `a_b`. -/
theorem C7_sanitize_filename :
    (∀ (s : String) (c : Char), c ∈ (_sanitize_filename s).data → isReserved c = false)
    ∧ _sanitize_filename "a/b:c" = "a_b_c"
    ∧ _sanitize_filename "a//b" = "a_b"
    ∧ _sanitize_filename "  x  " = "x"
    ∧ _sanitize_filename "x.. " = "x"
    ∧ _sanitize_filename "   " = "document"
    ∧ _sanitize_filename "" = "document" := by
  refine ⟨?_, by decide, by decide, by decide, by decide, by decide, by decide⟩
  intro s c hc
  unfold _sanitize_filename at hc
  dsimp only at hc
  by_cases h1 : pyStrip s.data = []
  · rw [if_pos h1] at hc
    exact (by decide : ∀ c ∈ ("document" : String).data, isReserved c = false) c hc
  · rw [if_neg h1] at hc
    by_cases h2 : pyStrip (rstripDotSpace (replRes false (pyStrip s.data))) = []
    · rw [if_pos h2] at hc
      exact (by decide : ∀ c ∈ ("document" : String).data, isReserved c = false) c hc
    · rw [if_neg h2] at hc
      have hm1 := mem_of_mem_pyStrip hc
      have hm2 := mem_of_mem_rstripDotSpace hm1
      exact replRes_not_reserved _ false c hm2

/-- Witness for C7: the underscore produced by sanitizing `a/b` is not
a reserved character. -/
theorem C7_sanitize_filename_witness : isReserved '_' = false :=
  C7_sanitize_filename.1 "a/b" '_' (by decide)

/-- C8: the output namer checks the conventional columns in the fixed
priority order `filename`, `file_name`, `doc_name`, `document_name`,
`id`, `name`; the first column with a non-empty (stripped) value wins
and is sanitized; when none matches, the name is the fixed prefix with
the 1-based index zero-padded to width four, and for index 3 the
fallback name is `document_0003`. -/
theorem C8_output_name_priority :
    (∀ (row : Record) (index : Nat),
        (∀ k ∈ nameKeys, pyStrip ((List.lookup k row).getD "").data = []) →
        _choose_output_filename row index = "document_" ++ zfill4 index)
    ∧ (∀ (row : Record) (index : Nat) (v : List Char),
        pyStrip ((List.lookup "filename" row).getD "").data = v → v ≠ [] →
        _choose_output_filename row index = _sanitize_filename (String.mk v))
    ∧ _choose_output_filename [] 3 = "document_0003"
    ∧ _choose_output_filename [("doc_name", "d"), ("id", "i")] 1 = "d"
    ∧ _choose_output_filename [("filename", "  "), ("id", " x ")] 2 = "x"
    ∧ zfill4 3 = "0003" := by
  refine ⟨?_, ?_, by decide, by decide, by decide, by decide⟩
  · intro row index h
    have h1 := h "filename" (by decide)
    have h2 := h "file_name" (by decide)
    have h3 := h "doc_name" (by decide)
    have h4 := h "document_name" (by decide)
    have h5 := h "id" (by decide)
    have h6 := h "name" (by decide)
    simp only [_choose_output_filename, nameKeys, chooseFrom, h1, h2, h3, h4, h5, h6,
      if_pos, Option.getD_none]
  · intro row index v hv hne
    simp only [_choose_output_filename, nameKeys, chooseFrom, hv]
    rw [if_neg hne]
    rfl

/-- Witness for C8: a record carrying `filename = a/b:c` is named by
sanitizing that value. -/
theorem C8_output_name_priority_witness :
    _choose_output_filename [("filename", "a/b:c")] 9 =
      _sanitize_filename (String.mk ("a/b:c" : String).data) :=
  C8_output_name_priority.2.1 [("filename", "a/b:c")] 9 ("a/b:c" : String).data
    (by decide) (by decide)

/-- C9: a fatal input failure — template or CSV source failing to
load, or the output directory failing to be created — yields exit
code 2 with no record processed (no produced path, no counted
failure), while a completed run yields exit code 0 exactly when the
failure count is zero and 1 otherwise, never the fatal code 2. -/
theorem C9_exit_codes :
    (∀ (now out e : String) (csvLoad : Except String (List Record)) (mk : Bool)
        (ok : Nat → String → Bool) (css : String),
        mainRun now out (Except.error e) csvLoad mk ok css = (2, [], 0))
    ∧ (∀ (now out tpl e : String) (mk : Bool) (ok : Nat → String → Bool) (css : String),
        mainRun now out (Except.ok tpl) (Except.error e) mk ok css = (2, [], 0))
    ∧ (∀ (now out tpl : String) (rows : List Record) (ok : Nat → String → Bool)
        (css : String),
        mainRun now out (Except.ok tpl) (Except.ok rows) false ok css = (2, [], 0))
    ∧ (∀ (now out tpl : String) (rows : List Record) (ok : Nat → String → Bool)
        (css : String),
        mainRun now out (Except.ok tpl) (Except.ok rows) true ok css =
          (if (processRows now (_inject_css_into_html tpl css) out ok 1 rows).2 = 0
            then 0 else 1,
           processRows now (_inject_css_into_html tpl css) out ok 1 rows))
    ∧ (∀ (now out tpl : String) (rows : List Record) (ok : Nat → String → Bool)
        (css : String),
        ((mainRun now out (Except.ok tpl) (Except.ok rows) true ok css).1 == 2) = false) := by
  refine ⟨fun _ _ _ _ _ _ _ => rfl, fun _ _ _ _ _ _ _ => rfl, fun _ _ _ _ _ _ => rfl,
    fun _ _ _ _ _ _ => rfl, ?_⟩
  intro now out tpl rows ok css
  show ((if (processRows now (_inject_css_into_html tpl css) out ok 1 rows).2 = 0
      then (0 : Nat) else 1) == 2) = false
  split <;> rfl

/-- C10: when the record itself carries a `generated_at` field, the
record-lookup path wins — the name is never reported unresolved, and a
`generated_at` placeholder is resolved to the record value (which, as
long as it does not itself contain the reserved token, survives the
second pass untouched) rather than to the clock timestamp. -/
theorem C10_record_overrides_timestamp :
    (∀ (now template : String) (row : Record) (v : String),
        List.lookup "generated_at" row = some v →
        "generated_at" ∉ (render_template now template row).missing_placeholders)
    ∧ (∀ now v : String, ¬ gaTok.data <:+: v.data →
        render_template now "\x7b\x7bgenerated_at\x7d\x7d" [("generated_at", v)] =
          { html := v, missing_placeholders := [] }) := by
  constructor
  · intro now template row v hlook hmem
    simp only [render_template] at hmem
    have hmem2 : "generated_at" ∈
        ((substPass row template.data).2.erase "generated_at").dedup := by
      have hperm := List.perm_insertionSort (fun a b : String => a ≤ b)
        ((substPass row template.data).2.erase "generated_at").dedup
      exact hperm.mem_iff.mp hmem
    rw [List.mem_dedup] at hmem2
    have hmem3 := List.mem_of_mem_erase hmem2
    have := substPass_missing_not_key row template.data.length template.data
      "generated_at" hmem3
    rw [hlook] at this
    exact Option.noConfusion this
  · intro now v hv
    have h := substPass_step_val [] [] "generated_at".data [] [("generated_at", v)] v []
      (by decide) (by decide) (by decide) (by decide) (by decide) rfl
    have hsub : substPass [("generated_at", v)]
        ("\x7b\x7bgenerated_at\x7d\x7d" : String).data = (v.data ++ [], []) := h
    rw [List.append_nil] at hsub
    simp only [render_template, hsub]
    rw [replaceAll_of_not_contained now.data v.data hv]
    rfl

/-- Witness for C10: a record with `generated_at = fixed` resolves the
reserved placeholder to `fixed`, not to the clock value `CLOCK`. -/
theorem C10_record_overrides_timestamp_witness :
    render_template "CLOCK" "\x7b\x7bgenerated_at\x7d\x7d" [("generated_at", "fixed")] =
      { html := "fixed", missing_placeholders := [] } :=
  C10_record_overrides_timestamp.2 "CLOCK" "fixed" (by decide)

